import Mathlib

/-!
# UploadPage (src/components/dashboard/sample.js)

A shallow embedding of the `UploadPage` React component: its six state cells,
the handlers `handleFileChange`, `validateFiles`, `handleUpload`, the
`onUploadProgress` callback, the two continuations of the `axios.post`
promise and the `setTimeout` callback.

Modelling conventions.
* A handler is a function on the component state; the `setX` calls of the
  source are applied in program order (no handler reads a state cell it has
  written, so the closure semantics of React and sequential update agree).
* JavaScript truthiness is explicit: `null`/`undefined` is `none`, and the
  empty string and the number `0` are falsy.
* The byte counts of a progress event are unsigned 64-bit integers (WebIDL
  `unsigned long long`). The callback reads them as JavaScript numbers, so each
  is first converted to the nearest binary64 double; the product
  `loaded * 100` and the quotient by `total` are rounded as doubles too (round
  to nearest, ties to even). For such counts neither overflow nor subnormals
  arise, so the exponent is left unbounded. `Math.round` is exact on the
  resulting value.
* A response body is `none` when it is `null`, and otherwise an object with an
  optional `message` string; reading `.message` of a `null` body throws.
-/

namespace UploadPage

/-- A browser `File` as the component reads it: `name`, `size`, `type`. -/
structure File where
  name : String
  size : Nat
  type : String
deriving DecidableEq

/-- The six `useState` cells of `UploadPage` (lines 14-19). -/
structure State where
  files : List File
  uploading : Bool
  extracting : Bool
  progress : Int
  error : Option String
  success : Option String
deriving DecidableEq

/-- The initial values given to `useState` (lines 14-19). -/
def initialState : State :=
  { files := [], uploading := false, extracting := false, progress := 0,
    error := none, success := none }

/-- JavaScript `a || b` for an optional string `a` and a string `b`:
`a` when it is truthy (present and non-empty), otherwise `b`. -/
def jsOr (a : Option String) (b : String) : String :=
  match a with
  | some s => if s = "" then b else s
  | none => b

/-- Truthiness of an optional string, as used by `error && (...)` in the markup. -/
def truthy (a : Option String) : Bool :=
  match a with
  | some s => decide (s ≠ "")
  | none => false

/-- Lines 21-27: `handleFileChange`. The argument is `event.target.files`
(`none` when it is null); a present `FileList`, even empty, is truthy. -/
def handleFileChange (targetFiles : Option (List File)) (s : State) : State :=
  match targetFiles with
  | some selectedFiles => { s with files := selectedFiles, error := none }
  | none => s

/-- Lines 30-35: the allow-list of MIME types. -/
def allowedTypes : List String :=
  [ "application/vnd.openxmlformats-officedocument.spreadsheetml.sheet",
    "application/pdf",
    "image/jpeg",
    "image/png" ]

/-- Lines 36-38: the files whose `type` is not in the allow-list. -/
def invalidFiles (files : List File) : List File :=
  files.filter (fun file => !allowedTypes.contains file.type)

/-- Lines 29-49: `validateFiles`, returning its boolean result and the state
after its (possible) `setError`. -/
def validateFiles (files : List File) (s : State) : Bool × State :=
  if (invalidFiles files).length > 0 then
    (false,
      { s with error := some ("Unsupported file format(s): " ++
          String.intercalate ", " ((invalidFiles files).map (fun f => f.name))) })
  else
    (true, s)

/-- The request passed to `axios.post`: url, the `FormData` entries in append
order, and the configured headers. -/
structure PostRequest where
  url : String
  formData : List (String × File)
  headers : List (String × String)
deriving DecidableEq

/-- Lines 65-76: the request built by `handleUpload` from the selection. -/
def buildRequest (files : List File) : PostRequest :=
  { url := "http://localhost:5000/api/upload/files",
    formData := files.map (fun file => ("files", file)),
    headers := [("Content-Type", "multipart/form-data")] }

/-- Lines 51-85: the synchronous part of `handleUpload` (up to the `await`),
over an arbitrary validator. It returns the new state and the list of HTTP
requests issued. -/
def handleUploadWith (validate : List File → State → Bool × State) (s : State) :
    State × List PostRequest :=
  if s.files.length = 0 then
    ({ s with error := some "Please select files to upload" }, [])
  else
    let r := validate s.files s
    if !r.1 then
      (r.2, [])
    else
      ({ r.2 with uploading := true, error := none, success := none },
        [buildRequest s.files])

/-- Lines 51-85: `handleUpload` with the component's own `validateFiles`. -/
def handleUpload (s : State) : State × List PostRequest :=
  handleUploadWith validateFiles s

/-- The fields of an axios progress event that the callback reads: the byte
counts of the underlying browser event, unsigned 64-bit integers; `total` is
`none` when it is undefined. -/
structure ProgressEvent where
  loaded : Fin (2 ^ 64)
  total : Option (Fin (2 ^ 64))
deriving DecidableEq

/-- Binary logarithm by halving, with `fuel` bounding the number of halvings. -/
def log2Fuel : Nat → Nat → Nat
  | 0, _ => 0
  | fuel + 1, n => if 2 ≤ n then log2Fuel fuel (n / 2) + 1 else 0

/-- The position of the leading bit of `n`: `2 ^ ilog2 n ≤ n < 2 ^ (ilog2 n + 1)`
for `n ≠ 0`. -/
def ilog2 (n : Nat) : Nat := log2Fuel n n

/-- The integer nearest to `n / d`, ties to the even neighbour. -/
def roundHalfEven (n d : Nat) : Nat :=
  if 2 * (n % d) < d then n / d
  else if d < 2 * (n % d) then n / d + 1
  else if (n / d) % 2 = 0 then n / d
  else n / d + 1

/-- JavaScript `a / b` on integer-valued doubles `a`, `b` with `b ≠ 0`: the
binary64 number nearest to the exact quotient, ties to even, returned as a
fraction `(numerator, denominator)`. The quotient is scaled by a power of two
into `[2 ^ 52, 2 ^ 53)`, rounded there to a 53-bit significand, and scaled
back. -/
def doubleDiv (a b : Nat) : Nat × Nat :=
  if a = 0 then (0, 1)
  else
    let h := if 2 ^ 53 * (b * 2 ^ ilog2 a) ≤ a * 2 ^ (53 + ilog2 b) then 1 else 0
    (roundHalfEven (a * 2 ^ (53 + ilog2 b)) (b * 2 ^ (ilog2 a + h)) * 2 ^ (ilog2 a + h),
      2 ^ (53 + ilog2 b))

/-- The binary64 number nearest to the natural number `n` (a 64-bit count read
as a JavaScript number, or the result of a double multiplication whose exact
product is `n`): `n` itself below `2 ^ 53`, otherwise `n` rounded to 53
significant bits. -/
def doubleOfNat (n : Nat) : Nat :=
  if n < 2 ^ 53 then n else (doubleDiv n 1).1 / (doubleDiv n 1).2

/-- JavaScript `Math.round` on a non-negative double given as a fraction: the
nearest integer, ties towards `+∞`, i.e. `floor (x + 1 / 2)`. -/
def mathRound (x : Nat × Nat) : Int := Int.ofNat ((2 * x.1 + x.2) / (2 * x.2))

/-- Lines 77-83: `onUploadProgress`. `progressEvent.total` is truthy when it is
present and non-zero; `loaded` and `total` enter the arithmetic as doubles. -/
def onUploadProgress (e : ProgressEvent) (s : State) : State :=
  match e.total with
  | some total =>
    if total.val ≠ 0 then
      { s with progress :=
          mathRound (doubleDiv (doubleOfNat (doubleOfNat e.loaded.val * 100))
            (doubleOfNat total.val)) }
    else s
  | none => s

/-- A non-null response body: only its optional `message` string is read. -/
structure Body where
  message : Option String
deriving DecidableEq

/-- A successful axios response; only `data` is read, and it is `none` when
the body is `null`. -/
structure Response where
  data : Option Body
deriving DecidableEq

/-- The `response` of an axios error; `data` may be missing. -/
structure ErrorResponse where
  data : Option Body
deriving DecidableEq

/-- An axios error; `response` is missing for network failures and timeouts. -/
structure AxiosError where
  response : Option ErrorResponse
deriving DecidableEq

/-- A pending `setTimeout` call: its delay in milliseconds and the response
captured by the callback's closure. -/
structure Timer where
  delay : Nat
  response : Response
deriving DecidableEq

/-- Lines 87-94: the continuation after a fulfilled `axios.post`: two state
writes and one `setTimeout` registration. -/
def onFulfilled (response : Response) (s : State) : State × List Timer :=
  ({ s with uploading := false, extracting := true },
    [{ delay := 5000, response := response }])

/-- Lines 91-94: the timer callback. `setExtracting(false)` runs first; with a
`null` body `response.data.message` then throws, outside any `try`, and
`setSuccess` is not reached. -/
def onTimeout (response : Response) (s : State) : State :=
  match response.data with
  | some body =>
    { s with extracting := false,
             success := some (jsOr body.message "Data extracted successfully!") }
  | none => { s with extracting := false }

/-- Lines 98-99: `err.response?.data?.message`. -/
def errorMessage (err : AxiosError) : Option String :=
  match err.response with
  | some r =>
    match r.data with
    | some d => d.message
    | none => none
  | none => none

/-- Lines 95-101: the `catch` branch of `handleUpload`. -/
def onRejected (err : AxiosError) (s : State) : State :=
  { s with uploading := false,
           error := some (jsOr (errorMessage err)
             "An error occurred during file upload or extraction") }

/-- Line 131: the `disabled` attribute of the file input. -/
def fileInputDisabled (s : State) : Bool := s.uploading || s.extracting

/-- Line 170: the `disabled` attribute of the submit button. -/
def submitDisabled (s : State) : Bool :=
  s.uploading || s.extracting || s.files.length == 0

/-- Line 200: the error banner is rendered when `error` is truthy. -/
def errorBanner (s : State) : Bool := truthy s.error

/-- Line 207: the success banner is rendered when `success` is truthy. -/
def successBanner (s : State) : Bool := truthy s.success

/-- The component in its environment: the state cells, a millisecond clock,
the `axios.post` promises not yet settled, and the registered timers with
their due time and captured response. -/
structure System where
  page : State
  now : Nat
  inflight : List PostRequest
  timers : List (Nat × Response)
deriving DecidableEq

/-- The freshly mounted component: no request, no timer. -/
def initialSystem : System :=
  { page := initialState, now := 0, inflight := [], timers := [] }

/-- The callbacks the event loop can dispatch to the component. -/
inductive Event where
  | fileChange (targetFiles : Option (List File))
  | click
  | progress (e : ProgressEvent)
  | fulfilled (i : Nat) (response : Response)
  | rejected (i : Nat) (err : AxiosError)
  | timeout
  | advance (ms : Nat)
deriving DecidableEq

/-- One dispatch. `progress`, `fulfilled` and `rejected` need a pending request
(`i` selects which one settles); `timeout` runs the oldest timer once it is
due; `advance` lets time pass. An impossible dispatch gives `none`. -/
def step (sys : System) : Event → Option System
  | Event.fileChange targetFiles =>
    some { sys with page := handleFileChange targetFiles sys.page }
  | Event.click =>
    let r := handleUpload sys.page
    some { sys with page := r.1, inflight := sys.inflight ++ r.2 }
  | Event.progress e =>
    if sys.inflight.length = 0 then none
    else some { sys with page := onUploadProgress e sys.page }
  | Event.fulfilled i response =>
    if i < sys.inflight.length then
      let r := onFulfilled response sys.page
      some { sys with page := r.1, inflight := sys.inflight.eraseIdx i,
                      timers := sys.timers ++ r.2.map (fun t => (sys.now + t.delay, t.response)) }
    else none
  | Event.rejected i err =>
    if i < sys.inflight.length then
      some { sys with page := onRejected err sys.page, inflight := sys.inflight.eraseIdx i }
    else none
  | Event.timeout =>
    match sys.timers with
    | [] => none
    | (due, response) :: rest =>
      if due ≤ sys.now then
        some { sys with page := onTimeout response sys.page, timers := rest }
      else none
  | Event.advance ms => some { sys with now := sys.now + ms }

/-- Whether the control behind a user event is enabled (lines 131 and 170);
environment callbacks are not gated. -/
def enabled (sys : System) : Event → Bool
  | Event.fileChange _ => !fileInputDisabled sys.page
  | Event.click => !submitDisabled sys.page
  | _ => true

/-- One dispatch in which user events only reach enabled controls. -/
def stepUI (sys : System) (e : Event) : Option System :=
  if enabled sys e then step sys e else none

/-- Run a sequence of dispatches from a system state. -/
def run (f : System → Event → Option System) : System → List Event → Option System
  | sys, [] => some sys
  | sys, e :: es =>
    match f sys e with
    | some sys1 => run f sys1 es
    | none => none

/-- A sample acceptable file. -/
def reportPdf : File := { name := "report.pdf", size := 5242880, type := "application/pdf" }

/-- A sample file outside the allow-list. -/
def notesTxt : File := { name := "notes.txt", size := 12, type := "text/plain" }

/-- A selection with one unsupported file between two acceptable ones. -/
def mixedSelection : State :=
  { initialState with
    files := [reportPdf, notesTxt, { name := "scan.png", size := 2048, type := "image/png" }] }

/-- A progress notification is in range when its total is unknown (absent or
zero) or is not exceeded by its loaded count; every other event is in range. -/
def inRange : Event → Bool
  | Event.progress e =>
    match e.total with
    | some total => decide (total.val = 0 ∨ e.loaded.val ≤ total.val)
    | none => true
  | _ => true

/-- One complete attempt ending in a displayed success, with the transfer
reported as complete. -/
def completedAttempt : List Event :=
  [ Event.fileChange (some [reportPdf]), Event.click,
    Event.progress { loaded := 5242880, total := some 5242880 },
    Event.fulfilled 0 { data := some { message := some "ok" } },
    Event.advance 5000, Event.timeout ]

/-- A started upload followed by a notification whose loaded count is twice
its total. -/
def overshootTrace : List Event :=
  [ Event.fileChange (some [reportPdf]), Event.click,
    Event.progress { loaded := 2, total := some 1 } ]

/-- A started upload with a notification without a usable total, then one that
reports half of the transfer. -/
def zeroTotalTrace : List Event :=
  [ Event.fileChange (some [reportPdf]), Event.click,
    Event.progress { loaded := 4096, total := some 0 },
    Event.progress { loaded := 2621440, total := some 5242880 } ]

/-- The system after `zeroTotalTrace`. -/
def halfwaySystem : System :=
  { page := { initialState with files := [reportPdf], uploading := true, progress := 50 },
    now := 0, inflight := [buildRequest [reportPdf]], timers := [] }

/-- The bookkeeping invariant of the gated system: `uploading` holds exactly
while one request is pending, `extracting` exactly while one timer is
registered, and request and timer together never number more than one. -/
def Coherent (sys : System) : Prop :=
  (sys.page.uploading = true ↔ sys.inflight.length = 1) ∧
  (sys.page.extracting = true ↔ sys.timers.length = 1) ∧
  sys.inflight.length + sys.timers.length ≤ 1

/-- A started upload whose request is still pending. -/
def pendingUpload : List Event :=
  [ Event.fileChange (some [reportPdf]), Event.click ]

/-- The system after `pendingUpload`: uploading, one request pending. -/
def pendingSystem : System :=
  { page := { initialState with files := [reportPdf], uploading := true },
    now := 0, inflight := [buildRequest [reportPdf]], timers := [] }

/-- The system after `completedAttempt`: idle again, showing the success. -/
def completedSystem : System :=
  { page := { initialState with files := [reportPdf], progress := 100, success := some "ok" },
    now := 5000, inflight := [], timers := [] }

/-! ## Auxiliary facts about the validator -/

theorem invalidFiles_eq_filter (files : List File) :
    invalidFiles files = files.filter (fun f => decide (f.type ∉ allowedTypes)) := by
  unfold invalidFiles
  apply List.filter_congr
  intro f _
  by_cases h : f.type ∈ allowedTypes
  · simp [h]
  · simp [h]

theorem invalidFiles_eq_nil_iff (files : List File) :
    invalidFiles files = [] ↔ ∀ f ∈ files, f.type ∈ allowedTypes := by
  rw [invalidFiles_eq_filter, List.filter_eq_nil_iff]
  simp

theorem invalidFiles_length_pos_iff (files : List File) :
    0 < (invalidFiles files).length ↔ ∃ f ∈ files, f.type ∉ allowedTypes := by
  rw [List.length_pos, Ne, invalidFiles_eq_nil_iff]
  push_neg
  rfl

/-! ## Claims about `validateFiles` and `handleUpload` -/

/-- C1: when the selection holds at least one file whose type is outside the
allow-list, `handleUpload` issues no request, leaves `uploading` (and every
cell but `error`) as it was, and sets `error` to the prefix followed by the
names of exactly the files outside the allow-list, in selection order, joined
by a comma and a space. -/
theorem handleUpload_rejects_unsupported (s : State)
    (h : ∃ f ∈ s.files, f.type ∉ allowedTypes) :
    (handleUpload s).2 = [] ∧
    (handleUpload s).1.uploading = s.uploading ∧
    (handleUpload s).1 =
      { s with error := some ("Unsupported file format(s): " ++
          String.intercalate ", "
            ((s.files.filter (fun f => decide (f.type ∉ allowedTypes))).map File.name)) } := by
  obtain ⟨f, hf, hft⟩ := h
  have hne : ¬ s.files.length = 0 := by
    intro h0
    rw [List.length_eq_zero] at h0
    rw [h0] at hf
    exact absurd hf (List.not_mem_nil f)
  have hpos : (invalidFiles s.files).length > 0 :=
    (invalidFiles_length_pos_iff s.files).2 ⟨f, hf, hft⟩
  have hv : validateFiles s.files s =
      (false, { s with error := some ("Unsupported file format(s): " ++
          String.intercalate ", " ((invalidFiles s.files).map (fun f => f.name))) }) := by
    unfold validateFiles
    rw [if_pos hpos]
  have hu : handleUpload s =
      ({ s with error := some ("Unsupported file format(s): " ++
          String.intercalate ", " ((invalidFiles s.files).map (fun f => f.name))) }, []) := by
    unfold handleUpload handleUploadWith
    rw [if_neg hne]
    simp only [hv]
    rfl
  rw [hu, invalidFiles_eq_filter]
  exact ⟨rfl, rfl, rfl⟩

/-- Witness for C1: a three-file selection whose middle file is plain text. -/
theorem handleUpload_rejects_unsupported_witness :
    (handleUpload mixedSelection).2 = [] ∧
    (handleUpload mixedSelection).1.uploading = false ∧
    (handleUpload mixedSelection).1.error =
      some "Unsupported file format(s): notes.txt" := by
  have h := handleUpload_rejects_unsupported mixedSelection
    ⟨notesTxt, by decide, by decide⟩
  refine ⟨h.1, h.2.1, ?_⟩
  rw [h.2.2]
  decide

/-- C2: with an empty selection `handleUpload` only sets `error` to
"Please select files to upload": no request is issued, every other cell is
unchanged, and the outcome is the same whatever the validator is (so the
validator is not consulted). -/
theorem handleUpload_empty_selection (s : State) (h : s.files = []) :
    handleUpload s = ({ s with error := some "Please select files to upload" }, []) ∧
    (∀ validate, handleUploadWith validate s = handleUpload s) ∧
    (handleUpload s).2 = [] ∧
    (handleUpload s).1.uploading = s.uploading ∧
    (handleUpload s).1.extracting = s.extracting ∧
    (handleUpload s).1.progress = s.progress ∧
    (handleUpload s).1.success = s.success ∧
    (handleUpload s).1.files = s.files := by
  have h0 : s.files.length = 0 := by rw [h]; rfl
  have hw : ∀ validate, handleUploadWith validate s =
      ({ s with error := some "Please select files to upload" }, []) := by
    intro validate
    unfold handleUploadWith
    rw [if_pos h0]
  have hu : handleUpload s =
      ({ s with error := some "Please select files to upload" }, []) := hw validateFiles
  refine ⟨hu, ?_, ?_, ?_, ?_, ?_, ?_, ?_⟩
  · intro validate
    rw [hw validate, hu]
  all_goals rw [hu]

/-- Witness for C2: the freshly mounted component, and a state that still
shows an earlier success. -/
theorem handleUpload_empty_selection_witness :
    handleUpload initialState =
      ({ initialState with error := some "Please select files to upload" }, []) ∧
    (handleUpload { initialState with success := some "ok", progress := 100 }).1.success
      = some "ok" :=
  ⟨(handleUpload_empty_selection initialState rfl).1,
   (handleUpload_empty_selection { initialState with success := some "ok", progress := 100 }
      rfl).2.2.2.2.2.2.1⟩

/-- C3: for a non-empty selection whose files all have an allow-listed type,
`validateFiles` returns true and writes nothing, and `handleUpload` sets
`uploading`, clears `error` and `success`, and issues exactly one POST to the
fixed endpoint whose form data holds the selected files, once each and in
selection order, every entry under the field name "files". -/
theorem handleUpload_accepts_valid (s : State) (hne : s.files ≠ [])
    (hall : ∀ f ∈ s.files, f.type ∈ allowedTypes) :
    validateFiles s.files s = (true, s) ∧
    (handleUpload s).1 = { s with uploading := true, error := none, success := none } ∧
    ∃ req, (handleUpload s).2 = [req] ∧
      req.url = "http://localhost:5000/api/upload/files" ∧
      req.formData.map Prod.snd = s.files ∧
      (∀ entry ∈ req.formData, entry.1 = "files") ∧
      req.formData.length = s.files.length := by
  have hlen : ¬ s.files.length = 0 := by
    intro h0
    exact hne (List.length_eq_zero.1 h0)
  have hnil : invalidFiles s.files = [] := (invalidFiles_eq_nil_iff s.files).2 hall
  have hv : validateFiles s.files s = (true, s) := by
    unfold validateFiles
    rw [hnil]
    rfl
  have hu : handleUpload s =
      ({ s with uploading := true, error := none, success := none },
        [buildRequest s.files]) := by
    unfold handleUpload handleUploadWith
    rw [if_neg hlen]
    simp only [hv]
    rfl
  refine ⟨hv, ?_, buildRequest s.files, ?_, rfl, ?_, ?_, ?_⟩
  · rw [hu]
  · rw [hu]
  · simp [buildRequest, List.map_map, Function.comp_def]
  · intro entry hentry
    simp only [buildRequest, List.mem_map] at hentry
    obtain ⟨f, _, rfl⟩ := hentry
    rfl
  · simp [buildRequest]

/-- Witness for C3: a single acceptable PDF. -/
theorem handleUpload_accepts_valid_witness :
    validateFiles [reportPdf] { initialState with files := [reportPdf] }
      = (true, { initialState with files := [reportPdf] }) ∧
    (handleUpload { initialState with files := [reportPdf] }).1.uploading = true := by
  have h := handleUpload_accepts_valid { initialState with files := [reportPdf] }
    (by decide) (by decide)
  refine ⟨h.1, ?_⟩
  rw [h.2.1]

/-! ## Progress -/

theorem log2Fuel_eq (fuel n : Nat) (h : n ≤ fuel) : log2Fuel fuel n = Nat.log2 n := by
  induction fuel generalizing n with
  | zero =>
    have : n = 0 := by omega
    subst this
    simp [log2Fuel, Nat.log2]
  | succ k ih =>
    rw [log2Fuel, Nat.log2]
    by_cases h2 : 2 ≤ n
    · have hk : n / 2 ≤ k := by omega
      simp only [h2, if_true, ge_iff_le, ih (n / 2) hk]
    · simp only [h2, if_false, ge_iff_le]

theorem ilog2_eq (n : Nat) : ilog2 n = Nat.log2 n := log2Fuel_eq n n (Nat.le_refl n)

theorem ilog2_le (n : Nat) (h : n ≠ 0) : 2 ^ ilog2 n ≤ n := by
  rw [ilog2_eq]
  exact Nat.log2_self_le h

theorem lt_ilog2 (n : Nat) : n < 2 ^ (ilog2 n + 1) := by
  rw [ilog2_eq]
  exact Nat.lt_log2_self

theorem roundHalfEven_near (n d : Nat) (hd : 0 < d) :
    2 * (roundHalfEven n d * d) ≤ 2 * n + d ∧ 2 * n ≤ 2 * (roundHalfEven n d * d) + d := by
  have hdm : n / d * d + n % d = n := by
    rw [Nat.mul_comm]
    exact Nat.div_add_mod n d
  have hlt : n % d < d := Nat.mod_lt n hd
  unfold roundHalfEven
  split_ifs <;> (try simp only [Nat.add_mul, Nat.one_mul]) <;> omega

theorem doubleDiv_facts (a b : Nat) (ha : 0 < a) (hb : 0 < b) :
    ∃ m u v : Nat, doubleDiv a b = (m * 2 ^ v, 2 ^ u) ∧
      2 ^ 52 * (b * 2 ^ v) ≤ a * 2 ^ u ∧
      2 * (m * (b * 2 ^ v)) ≤ 2 * (a * 2 ^ u) + b * 2 ^ v ∧
      2 * (a * 2 ^ u) ≤ 2 * (m * (b * 2 ^ v)) + b * 2 ^ v ∧
      a * 2 ^ u < 2 ^ 53 * (b * 2 ^ v) := by
  have ha0 : a ≠ 0 := by omega
  have hb0 : b ≠ 0 := by omega
  have hla := ilog2_le a ha0
  have hlb := lt_ilog2 b
  have hla2 := lt_ilog2 a
  have hlb2 := ilog2_le b hb0
  have hdef : doubleDiv a b =
      (roundHalfEven (a * 2 ^ (53 + ilog2 b))
          (b * 2 ^ (ilog2 a +
            (if 2 ^ 53 * (b * 2 ^ ilog2 a) ≤ a * 2 ^ (53 + ilog2 b) then 1 else 0))) *
        2 ^ (ilog2 a +
            (if 2 ^ 53 * (b * 2 ^ ilog2 a) ≤ a * 2 ^ (53 + ilog2 b) then 1 else 0)),
        2 ^ (53 + ilog2 b)) := by
    unfold doubleDiv
    rw [if_neg ha0]
  refine ⟨_, 53 + ilog2 b, _, hdef, ?_, ?_, ?_, ?_⟩
  · by_cases hc : 2 ^ 53 * (b * 2 ^ ilog2 a) ≤ a * 2 ^ (53 + ilog2 b)
    · simp only [hc, if_true]
      calc 2 ^ 52 * (b * 2 ^ (ilog2 a + 1))
          = 2 ^ 53 * (b * 2 ^ ilog2 a) := by ring
        _ ≤ a * 2 ^ (53 + ilog2 b) := hc
    · simp only [hc, if_false, Nat.add_zero]
      calc 2 ^ 52 * (b * 2 ^ ilog2 a)
          ≤ 2 ^ 52 * (2 ^ (ilog2 b + 1) * a) :=
            Nat.mul_le_mul_left _ (Nat.mul_le_mul (Nat.le_of_lt hlb) hla)
        _ = a * 2 ^ (53 + ilog2 b) := by ring
  · have hpos : 0 < b * 2 ^ (ilog2 a +
        (if 2 ^ 53 * (b * 2 ^ ilog2 a) ≤ a * 2 ^ (53 + ilog2 b) then 1 else 0)) :=
      Nat.mul_pos hb (Nat.pow_pos (by decide))
    exact (roundHalfEven_near _ _ hpos).1
  · have hpos : 0 < b * 2 ^ (ilog2 a +
        (if 2 ^ 53 * (b * 2 ^ ilog2 a) ≤ a * 2 ^ (53 + ilog2 b) then 1 else 0)) :=
      Nat.mul_pos hb (Nat.pow_pos (by decide))
    exact (roundHalfEven_near _ _ hpos).2
  · by_cases hc : 2 ^ 53 * (b * 2 ^ ilog2 a) ≤ a * 2 ^ (53 + ilog2 b)
    · simp only [hc, if_true]
      calc a * 2 ^ (53 + ilog2 b)
          < 2 ^ (ilog2 a + 1) * 2 ^ (53 + ilog2 b) :=
            Nat.mul_lt_mul_of_pos_right hla2 (Nat.pow_pos (by decide))
        _ = 2 ^ 53 * (2 ^ ilog2 b * 2 ^ (ilog2 a + 1)) := by ring
        _ ≤ 2 ^ 53 * (b * 2 ^ (ilog2 a + 1)) :=
            Nat.mul_le_mul_left _ (Nat.mul_le_mul_right _ hlb2)
    · simp only [hc, if_false, Nat.add_zero]
      omega

theorem round_core (a b m P X k : Nat) (hb : 0 < b) (hX : 0 < X) (hbP : b < 2 * P)
    (h1 : 2 * (m * (b * X)) ≤ 2 * (a * (X * (2 * P))) + b * X)
    (h2 : 2 * (a * (X * (2 * P))) ≤ 2 * (m * (b * X)) + b * X)
    (hk1 : 2 * b * k ≤ 2 * a + b) (hk2 : 2 * a + b < 2 * b * (k + 1)) :
    (2 * (m * X) + X * (2 * P)) / (2 * (X * (2 * P))) = k := by
  have h1c : 2 * m * b ≤ 4 * a * P + b := by
    apply Nat.le_of_mul_le_mul_right _ hX
    calc 2 * m * b * X = 2 * (m * (b * X)) := by ring
      _ ≤ 2 * (a * (X * (2 * P))) + b * X := h1
      _ = (4 * a * P + b) * X := by ring
  have h2c : 4 * a * P ≤ 2 * m * b + b := by
    apply Nat.le_of_mul_le_mul_right _ hX
    calc 4 * a * P * X = 2 * (a * (X * (2 * P))) := by ring
      _ ≤ 2 * (m * (b * X)) + b * X := h2
      _ = (2 * m * b + b) * X := by ring
  have hrw : (2 * (m * X) + X * (2 * P)) / (2 * (X * (2 * P))) = (m + P) / (2 * P) := by
    have e1 : 2 * (m * X) + X * (2 * P) = (2 * X) * (m + P) := by ring
    have e2 : 2 * (X * (2 * P)) = (2 * X) * (2 * P) := by ring
    rw [e1, e2, Nat.mul_div_mul_left _ _ (by omega : 0 < 2 * X)]
  rw [hrw]
  apply Nat.div_eq_of_lt_le
  · by_contra hcon
    have hc : m + P + 1 ≤ k * (2 * P) := by omega
    have hc2 : (m + P + 1) * (2 * b) ≤ k * (2 * P) * (2 * b) := Nat.mul_le_mul_right _ hc
    have hk1p : 2 * b * k * (2 * P) ≤ (2 * a + b) * (2 * P) := Nat.mul_le_mul_right _ hk1
    nlinarith
  · by_contra hcon
    have hc : (k + 1) * (2 * P) ≤ m + P := by
      have : ¬ m + P < (k + 1) * (2 * P) := hcon
      omega
    have hc2 : (k + 1) * (2 * P) * (2 * b) ≤ (m + P) * (2 * b) := Nat.mul_le_mul_right _ hc
    have hk2p : (2 * a + b + 1) * (2 * P) ≤ 2 * b * (k + 1) * (2 * P) :=
      Nat.mul_le_mul_right _ hk2
    nlinarith

theorem mathRound_doubleDiv_exact (a b : Nat) (ha : a < 2 ^ 52) (hb : 0 < b) :
    mathRound (doubleDiv a b) = Int.ofNat ((2 * a + b) / (2 * b)) := by
  rcases Nat.eq_zero_or_pos a with h0 | hpos
  · subst h0
    have hz : (2 * 0 + b) / (2 * b) = 0 := Nat.div_eq_of_lt (by omega)
    have hd : doubleDiv 0 b = (0, 1) := by
      unfold doubleDiv
      rw [if_pos rfl]
    rw [hz, hd]
    decide
  · obtain ⟨m, u, v, hdef, hnorm, hr1, hr2, _⟩ := doubleDiv_facts a b hpos hb
    have hXpos : 0 < 2 ^ v := Nat.pow_pos (by decide)
    have hUpos : 0 < 2 ^ u := Nat.pow_pos (by decide)
    have hlt : b * 2 ^ v < 2 ^ u := by
      have h1 : a * 2 ^ u < 2 ^ 52 * 2 ^ u := Nat.mul_lt_mul_of_pos_right ha hUpos
      have h2 : 2 ^ 52 * (b * 2 ^ v) < 2 ^ 52 * 2 ^ u := Nat.lt_of_le_of_lt hnorm h1
      exact Nat.lt_of_mul_lt_mul_left h2
    have hvu : v < u := by
      have h3 : 2 ^ v < 2 ^ u :=
        Nat.lt_of_le_of_lt (Nat.le_mul_of_pos_left _ hb) hlt
      exact (Nat.pow_lt_pow_iff_right (by decide)).1 h3
    obtain ⟨w, rfl⟩ : ∃ w, u = v + 1 + w := ⟨u - v - 1, by omega⟩
    have hu : 2 ^ (v + 1 + w) = 2 ^ v * (2 * 2 ^ w) := by ring
    rw [hu] at hlt hr1 hr2
    have hbP : b < 2 * 2 ^ w := by
      have : 2 ^ v * b < 2 ^ v * (2 * 2 ^ w) := by
        rw [Nat.mul_comm (2 ^ v) b]
        exact hlt
      exact Nat.lt_of_mul_lt_mul_left this
    have hk1 : 2 * b * ((2 * a + b) / (2 * b)) ≤ 2 * a + b := Nat.mul_div_le _ _
    have hk2 : 2 * a + b < 2 * b * ((2 * a + b) / (2 * b) + 1) :=
      Nat.lt_mul_div_succ _ (by omega)
    have hcore := round_core a b m (2 ^ w) (2 ^ v) ((2 * a + b) / (2 * b)) hb hXpos hbP
      hr1 hr2 hk1 hk2
    unfold mathRound
    rw [hdef, hu]
    simp only
    rw [hcore]

theorem doubleDiv_le (a b : Nat) (hb : 0 < b) :
    0 < (doubleDiv a b).2 ∧
    ((doubleDiv a b).1 : ℚ) ≤ (a : ℚ) / b * (1 + 1 / 2 ^ 53) * ((doubleDiv a b).2 : ℚ) := by
  rcases Nat.eq_zero_or_pos a with h0 | hpos
  · subst h0
    simp [doubleDiv]
  · obtain ⟨m, u, v, hdef, hnorm, hr1, _, _⟩ := doubleDiv_facts a b hpos hb
    rw [hdef]
    refine ⟨Nat.pow_pos (by decide), ?_⟩
    have hbq : (0 : ℚ) < b := by exact_mod_cast hb
    have hnq : (2 : ℚ) ^ 52 * ((b : ℚ) * 2 ^ v) ≤ (a : ℚ) * 2 ^ u := by exact_mod_cast hnorm
    have hrq : 2 * ((m : ℚ) * ((b : ℚ) * 2 ^ v)) ≤ 2 * ((a : ℚ) * 2 ^ u) + (b : ℚ) * 2 ^ v := by
      exact_mod_cast hr1
    have hkey : (m : ℚ) * 2 ^ v * b ≤ (a : ℚ) * 2 ^ u * (1 + 1 / 2 ^ 53) := by
      norm_num at hnq ⊢
      nlinarith
    push_cast
    rw [div_mul_eq_mul_div, div_mul_eq_mul_div, le_div_iff₀ hbq]
    linarith

theorem doubleOfNat_le (n : Nat) : (doubleOfNat n : ℚ) ≤ (n : ℚ) * (1 + 1 / 2 ^ 53) := by
  unfold doubleOfNat
  split_ifs
  · have hn : (0 : ℚ) ≤ n := Nat.cast_nonneg n
    nlinarith
  · obtain ⟨hden, hle⟩ := doubleDiv_le n 1 (by decide)
    have hdq : (0 : ℚ) < ((doubleDiv n 1).2 : ℚ) := by exact_mod_cast hden
    calc (((doubleDiv n 1).1 / (doubleDiv n 1).2 : ℕ) : ℚ)
        ≤ ((doubleDiv n 1).1 : ℚ) / ((doubleDiv n 1).2 : ℚ) := Nat.cast_div_le
      _ ≤ (n : ℚ) * (1 + 1 / 2 ^ 53) := by
          rw [div_le_iff₀ hdq]
          simpa using hle

theorem doubleOfNat_ge (n : Nat) : (n : ℚ) * (1 - 1 / 2 ^ 53) ≤ (doubleOfNat n : ℚ) := by
  unfold doubleOfNat
  split_ifs with hsmall
  · have hn : (0 : ℚ) ≤ n := Nat.cast_nonneg n
    nlinarith
  · have hbig : 2 ^ 53 ≤ n := Nat.le_of_not_lt hsmall
    have hpos : 0 < n := Nat.lt_of_lt_of_le (by decide) hbig
    obtain ⟨m, u, v, hdef, hnorm, _, hr2, hup⟩ := doubleDiv_facts n 1 hpos (by decide)
    rw [hdef]
    simp only [Nat.one_mul] at hnorm hr2 hup
    have hUpos : 0 < 2 ^ u := Nat.pow_pos (by decide)
    have huv : u ≤ v := by
      have h1 : 2 ^ 53 * 2 ^ u ≤ n * 2 ^ u := Nat.mul_le_mul_right _ hbig
      have h2 : 2 ^ 53 * 2 ^ u < 2 ^ 53 * 2 ^ v := Nat.lt_of_le_of_lt h1 hup
      have h3 : 2 ^ u < 2 ^ v := Nat.lt_of_mul_lt_mul_left h2
      exact Nat.le_of_lt ((Nat.pow_lt_pow_iff_right (by decide)).1 h3)
    obtain ⟨w, rfl⟩ : ∃ w, v = u + w := ⟨v - u, by omega⟩
    have hdiv : m * 2 ^ (u + w) / 2 ^ u = m * 2 ^ w := by
      have hmul : m * 2 ^ (u + w) = m * 2 ^ w * 2 ^ u := by ring
      rw [hmul, Nat.mul_div_cancel _ hUpos]
    have hn1 : 2 ^ 52 * 2 ^ w ≤ n := by
      apply Nat.le_of_mul_le_mul_right _ hUpos
      calc 2 ^ 52 * 2 ^ w * 2 ^ u = 2 ^ 52 * 2 ^ (u + w) := by ring
        _ ≤ n * 2 ^ u := hnorm
    have hn2 : 2 * n ≤ 2 * (m * 2 ^ w) + 2 ^ w := by
      apply Nat.le_of_mul_le_mul_right _ hUpos
      calc 2 * n * 2 ^ u = 2 * (n * 2 ^ u) := by ring
        _ ≤ 2 * (m * 2 ^ (u + w)) + 2 ^ (u + w) := hr2
        _ = (2 * (m * 2 ^ w) + 2 ^ w) * 2 ^ u := by ring
    simp only [hdiv]
    have hq1 : (2 : ℚ) ^ 52 * 2 ^ w ≤ (n : ℚ) := by exact_mod_cast hn1
    have hq2 : 2 * (n : ℚ) ≤ 2 * ((m : ℚ) * 2 ^ w) + 2 ^ w := by exact_mod_cast hn2
    push_cast
    norm_num at hq1 ⊢
    nlinarith

theorem doubleOfNat_pos (n : Nat) (hn : 0 < n) : 0 < doubleOfNat n := by
  have hge := doubleOfNat_ge n
  have hnq : (0 : ℚ) < n := by exact_mod_cast hn
  have hpos : (0 : ℚ) < (doubleOfNat n : ℚ) := by
    have : (0 : ℚ) < (n : ℚ) * (1 - 1 / 2 ^ 53) := by
      apply mul_pos hnq
      norm_num
    linarith
  exact_mod_cast hpos

theorem progress_le_hundred (loaded total : Nat) (ht : 0 < total) (hle : loaded ≤ total) :
    mathRound (doubleDiv (doubleOfNat (doubleOfNat loaded * 100)) (doubleOfNat total))
      ≤ 100 := by
  have htpos := doubleOfNat_pos total ht
  obtain ⟨hden, hq⟩ :=
    doubleDiv_le (doubleOfNat (doubleOfNat loaded * 100)) (doubleOfNat total) htpos
  have hA := doubleOfNat_le (doubleOfNat loaded * 100)
  have hL := doubleOfNat_le loaded
  have hT := doubleOfNat_ge total
  have htq : (0 : ℚ) < total := by exact_mod_cast ht
  have hlq : (loaded : ℚ) ≤ total := by exact_mod_cast hle
  have hl0 : (0 : ℚ) ≤ loaded := Nat.cast_nonneg loaded
  have hTq : (0 : ℚ) < (doubleOfNat total : ℚ) := by exact_mod_cast htpos
  generalize (doubleOfNat total : ℚ) = T at hT hTq hq
  generalize hAdef : doubleOfNat (doubleOfNat loaded * 100) = A at hA hq hden ⊢
  generalize hrdef : doubleDiv A (doubleOfNat total) = r at hq hden ⊢
  have hdq : (0 : ℚ) < (r.2 : ℚ) := by exact_mod_cast hden
  push_cast at hA
  generalize (doubleOfNat loaded : ℚ) = L at hA hL
  generalize (A : ℚ) = Aq at hA hq
  have hA2 : Aq ≤ 100 * (total : ℚ) * ((1 + 1 / 2 ^ 53) * (1 + 1 / 2 ^ 53)) := by
    have h1 : L * 100 * (1 + 1 / 2 ^ 53) ≤ (loaded : ℚ) * (1 + 1 / 2 ^ 53) * 100 * (1 + 1 / 2 ^ 53) := by
      have : (0 : ℚ) ≤ 100 * (1 + 1 / 2 ^ 53) := by norm_num
      nlinarith
    have h2 : (loaded : ℚ) * (1 + 1 / 2 ^ 53) * 100 * (1 + 1 / 2 ^ 53)
        ≤ (total : ℚ) * (1 + 1 / 2 ^ 53) * 100 * (1 + 1 / 2 ^ 53) := by
      have : (0 : ℚ) ≤ (1 + 1 / 2 ^ 53) * 100 * (1 + 1 / 2 ^ 53) := by norm_num
      nlinarith
    linarith
  have hAT : Aq / T ≤ 1005 / 10 / (1 + 1 / 2 ^ 53) - 1 / 1000 := by
    rw [div_le_iff₀ hTq]
    have hT2 : (total : ℚ) ≤ T / (1 - 1 / 2 ^ 53) := by
      rw [le_div_iff₀ (by norm_num)]
      exact hT
    have hc : (0 : ℚ) ≤ 100 * ((1 + 1 / 2 ^ 53) * (1 + 1 / 2 ^ 53)) := by norm_num
    have h3 : Aq ≤ 100 * (T / (1 - 1 / 2 ^ 53)) * ((1 + 1 / 2 ^ 53) * (1 + 1 / 2 ^ 53)) := by
      nlinarith
    have h4 : 100 * (T / (1 - 1 / 2 ^ 53)) * ((1 + 1 / 2 ^ 53) * (1 + 1 / 2 ^ 53))
        ≤ (1005 / 10 / (1 + 1 / 2 ^ 53) - 1 / 1000) * T := by
      have e : 100 * (T / (1 - 1 / 2 ^ 53)) * ((1 + 1 / 2 ^ 53) * (1 + 1 / 2 ^ 53))
          = (100 / (1 - 1 / 2 ^ 53) * ((1 + 1 / 2 ^ 53) * (1 + 1 / 2 ^ 53))) * T := by
        field_simp
        ring
      rw [e]
      apply mul_le_mul_of_nonneg_right _ hTq.le
      norm_num
    linarith
  have hx : (r.1 : ℚ) < 1005 / 10 * (r.2 : ℚ) := by
    have h5 : Aq / T * (1 + 1 / 2 ^ 53) * (r.2 : ℚ)
        ≤ (1005 / 10 / (1 + 1 / 2 ^ 53) - 1 / 1000) * (1 + 1 / 2 ^ 53) * (r.2 : ℚ) := by
      apply mul_le_mul_of_nonneg_right _ hdq.le
      apply mul_le_mul_of_nonneg_right hAT
      norm_num
    have h6 : (1005 / 10 / (1 + 1 / 2 ^ 53) - 1 / 1000) * (1 + 1 / 2 ^ 53) * (r.2 : ℚ)
        < 1005 / 10 * (r.2 : ℚ) := by
      apply mul_lt_mul_of_pos_right _ hdq
      norm_num
    linarith
  have hnat : 2 * r.1 + r.2 < 101 * (2 * r.2) := by
    have : (2 * (r.1 : ℚ) + (r.2 : ℚ)) < 101 * (2 * (r.2 : ℚ)) := by linarith
    exact_mod_cast this
  unfold mathRound
  have hdiv : (2 * r.1 + r.2) / (2 * r.2) < 101 := by
    rw [Nat.div_lt_iff_lt_mul (by omega)]
    exact hnat
  have hle100 : (2 * r.1 + r.2) / (2 * r.2) ≤ 100 := by omega
  rw [Int.ofNat_eq_coe]
  exact_mod_cast hle100

theorem progress_exact (loaded total : Nat) (hs : loaded * 100 < 2 ^ 52) (ht : 0 < total) :
    mathRound (doubleDiv (doubleOfNat (doubleOfNat loaded * 100)) (doubleOfNat total))
      = Int.ofNat ((2 * (loaded * 100) + total) / (2 * total)) := by
  have hl : doubleOfNat loaded = loaded := by
    unfold doubleOfNat
    rw [if_pos (by omega)]
  have ha : doubleOfNat (loaded * 100) = loaded * 100 := by
    unfold doubleOfNat
    rw [if_pos (by omega)]
  rw [hl, ha]
  by_cases hsmall : total < 2 ^ 53
  · have htt : doubleOfNat total = total := by
      unfold doubleOfNat
      rw [if_pos hsmall]
    rw [htt]
    exact mathRound_doubleDiv_exact _ _ hs ht
  · have hbig : 2 ^ 53 ≤ total := Nat.le_of_not_lt hsmall
    have hge := doubleOfNat_ge total
    have hT : 2 ^ 53 - 1 ≤ doubleOfNat total := by
      have hq : ((2 ^ 53 - 1 : ℕ) : ℚ) ≤ (doubleOfNat total : ℚ) := by
        have hbq : ((2 : ℚ) ^ 53) ≤ (total : ℚ) := by exact_mod_cast hbig
        have hmul : (2 : ℚ) ^ 53 * (1 - 1 / 2 ^ 53) ≤ (total : ℚ) * (1 - 1 / 2 ^ 53) := by
          apply mul_le_mul_of_nonneg_right hbq
          norm_num
        have hc1 : ((2 ^ 53 - 1 : ℕ) : ℚ) = 2 ^ 53 - 1 := by norm_num
        have hc2 : (2 : ℚ) ^ 53 * (1 - 1 / 2 ^ 53) = 2 ^ 53 - 1 := by norm_num
        rw [hc1, ← hc2]
        exact le_trans hmul hge
      exact_mod_cast hq
    have htp : 0 < doubleOfNat total := by omega
    rw [mathRound_doubleDiv_exact _ _ hs htp]
    have e1 : (2 * (loaded * 100) + doubleOfNat total) / (2 * doubleOfNat total) = 0 :=
      Nat.div_eq_of_lt (by omega)
    have e2 : (2 * (loaded * 100) + total) / (2 * total) = 0 :=
      Nat.div_eq_of_lt (by omega)
    rw [e1, e2]

theorem natRound_eq_floor (a b : Nat) (hb : b ≠ 0) :
    Int.ofNat ((2 * a + b) / (2 * b)) = ⌊(a : ℚ) / (b : ℚ) + 1 / 2⌋ := by
  have hbq : (b : ℚ) ≠ 0 := Nat.cast_ne_zero.2 hb
  have hq : (a : ℚ) / (b : ℚ) + 1 / 2
      = (((2 * a + b : ℕ) : ℤ) : ℚ) / ((2 * b : ℕ) : ℚ) := by
    push_cast
    field_simp
    ring
  rw [hq, Rat.floor_intCast_div_natCast]
  norm_cast

theorem mathRound_nonneg (x : Nat × Nat) : 0 ≤ mathRound x := by
  unfold mathRound
  exact Int.ofNat_nonneg _

theorem onTimeout_cells (response : Response) (s : State) :
    (onTimeout response s).files = s.files ∧
    (onTimeout response s).uploading = s.uploading ∧
    (onTimeout response s).extracting = false ∧
    (onTimeout response s).progress = s.progress ∧
    (onTimeout response s).error = s.error := by
  unfold onTimeout
  cases response.data <;> exact ⟨rfl, rfl, rfl, rfl, rfl⟩

theorem handleUpload_progress (s : State) : (handleUpload s).1.progress = s.progress := by
  unfold handleUpload handleUploadWith validateFiles
  split_ifs <;> rfl

theorem onUploadProgress_bounds (e : ProgressEvent) (s : State)
    (hr : inRange (Event.progress e) = true)
    (hs : 0 ≤ s.progress ∧ s.progress ≤ 100) :
    0 ≤ (onUploadProgress e s).progress ∧ (onUploadProgress e s).progress ≤ 100 := by
  unfold onUploadProgress
  cases ht : e.total with
  | none => exact hs
  | some total =>
    by_cases h0 : total.val = 0
    · simp only [h0, ne_eq, not_true_eq_false, if_false]
      exact hs
    · simp only [ne_eq, h0, not_false_eq_true, if_true]
      have hle : e.loaded.val ≤ total.val := by
        have hor : total.val = 0 ∨ e.loaded.val ≤ total.val := by
          simpa [inRange, ht] using hr
        exact hor.resolve_left h0
      exact ⟨mathRound_nonneg _, progress_le_hundred _ _ (Nat.pos_of_ne_zero h0) hle⟩

theorem step_progress_bounds (sys sys1 : System) (e : Event)
    (hstep : step sys e = some sys1) (hr : inRange e = true)
    (hs : 0 ≤ sys.page.progress ∧ sys.page.progress ≤ 100) :
    0 ≤ sys1.page.progress ∧ sys1.page.progress ≤ 100 := by
  cases e with
  | fileChange targetFiles =>
    simp only [step, Option.some.injEq] at hstep
    subst hstep
    cases targetFiles <;> exact hs
  | click =>
    simp only [step, Option.some.injEq] at hstep
    subst hstep
    simp only [handleUpload_progress]
    exact hs
  | progress pe =>
    simp only [step] at hstep
    split_ifs at hstep
    simp only [Option.some.injEq] at hstep
    subst hstep
    exact onUploadProgress_bounds pe sys.page hr hs
  | fulfilled i response =>
    simp only [step] at hstep
    split_ifs at hstep
    simp only [Option.some.injEq] at hstep
    subst hstep
    exact hs
  | rejected i err =>
    simp only [step] at hstep
    split_ifs at hstep
    simp only [Option.some.injEq] at hstep
    subst hstep
    exact hs
  | timeout =>
    simp only [step] at hstep
    split at hstep
    · exact absurd hstep (by simp)
    · rename_i due response rest htimers
      split_ifs at hstep
      simp only [Option.some.injEq] at hstep
      subst hstep
      simp only [(onTimeout_cells response sys.page).2.2.2.1]
      exact hs
  | advance ms =>
    simp only [step, Option.some.injEq] at hstep
    subst hstep
    exact hs

theorem run_progress_bounds (evs : List Event) (sys0 sys : System)
    (hrun : run step sys0 evs = some sys) (hr : ∀ e ∈ evs, inRange e = true)
    (hs : 0 ≤ sys0.page.progress ∧ sys0.page.progress ≤ 100) :
    0 ≤ sys.page.progress ∧ sys.page.progress ≤ 100 := by
  induction evs generalizing sys0 with
  | nil =>
    simp only [run, Option.some.injEq] at hrun
    subst hrun
    exact hs
  | cons e es ih =>
    simp only [run] at hrun
    cases hstep : step sys0 e with
    | none => simp [hstep] at hrun
    | some sys1 =>
      rw [hstep] at hrun
      exact ih sys1 hrun (fun x hx => hr x (List.mem_cons_of_mem e hx))
        (step_progress_bounds sys0 sys1 e hstep (hr e (List.mem_cons_self e es)) hs)

theorem onUploadProgress_change (e : ProgressEvent) (s : State) :
    (onUploadProgress e s).progress = s.progress ∨
    ∃ total, e.total = some total ∧ total.val ≠ 0 := by
  unfold onUploadProgress
  cases ht : e.total with
  | none => exact Or.inl rfl
  | some total =>
    by_cases h0 : total.val = 0
    · left
      simp only [h0, ne_eq, not_true_eq_false, if_false]
    · exact Or.inr ⟨total, rfl, h0⟩

/-- C7, counterexample: for 79600000000198 bytes of 80000000000199 the exact
percentage rounds to 99, but the double quotient is 99.5 and the stored
progress is 100. -/
theorem double_quotient_counterexample :
    (onUploadProgress { loaded := 79600000000198, total := some 80000000000199 }
      initialState).progress = 100 ∧
    ⌊(79600000000198 : ℚ) / 80000000000199 * 100 + 1 / 2⌋ = 99 := by
  refine ⟨by decide, ?_⟩
  rw [Int.floor_eq_iff]
  constructor <;> norm_num

/-- C7, amended: on a progress notification whose total is present and
non-zero and whose `loaded * 100` is below `2 ^ 52`, `progress` becomes the
integer nearest to `loaded / total * 100`, halves rounded up, and no other
cell changes; when the total is absent or zero the state is left exactly as it
was. -/
theorem onUploadProgress_rounds (e : ProgressEvent) (s : State) :
    (∀ total, e.total = some total → total.val ≠ 0 → e.loaded.val * 100 < 2 ^ 52 →
      onUploadProgress e s =
        { s with progress := ⌊(e.loaded.val : ℚ) / (total.val : ℚ) * 100 + 1 / 2⌋ } ∧
      ((onUploadProgress e s).progress : ℚ) - 1 / 2
        ≤ (e.loaded.val : ℚ) * 100 / (total.val : ℚ) ∧
      (e.loaded.val : ℚ) * 100 / (total.val : ℚ)
        < ((onUploadProgress e s).progress : ℚ) + 1 / 2) ∧
    ((e.total = none ∨ e.total = some 0) → onUploadProgress e s = s) := by
  constructor
  · intro total ht h0 hsmall
    have hfl : mathRound (doubleDiv (doubleOfNat (doubleOfNat e.loaded.val * 100))
          (doubleOfNat total.val))
        = ⌊(e.loaded.val : ℚ) / (total.val : ℚ) * 100 + 1 / 2⌋ := by
      rw [progress_exact _ _ hsmall (Nat.pos_of_ne_zero h0), natRound_eq_floor _ _ h0]
      congr 1
      push_cast
      ring
    have hst : onUploadProgress e s =
        { s with progress := ⌊(e.loaded.val : ℚ) / (total.val : ℚ) * 100 + 1 / 2⌋ } := by
      unfold onUploadProgress
      simp only [ht, ne_eq, h0, not_false_eq_true, if_true, hfl]
    have hx : (e.loaded.val : ℚ) / (total.val : ℚ) * 100
        = (e.loaded.val : ℚ) * 100 / (total.val : ℚ) := by
      ring
    refine ⟨hst, ?_, ?_⟩
    · rw [hst]
      have hfloor := Int.floor_le ((e.loaded.val : ℚ) / (total.val : ℚ) * 100 + 1 / 2)
      simp only at hfloor ⊢
      linarith
    · rw [hst]
      have hfloor :=
        Int.lt_floor_add_one ((e.loaded.val : ℚ) / (total.val : ℚ) * 100 + 1 / 2)
      simp only at hfloor ⊢
      linarith
  · intro h
    unfold onUploadProgress
    rcases h with h | h
    · simp only [h]
    · simp only [h, Fin.val_zero, ne_eq, not_true_eq_false, if_false]

/-- Witness for C7: one byte of eight rounds 12.5 up to 13, and a notification
without a total leaves the state alone. -/
theorem onUploadProgress_rounds_witness :
    (onUploadProgress { loaded := 1, total := some 8 } initialState).progress = 13 ∧
    ((onUploadProgress { loaded := 1, total := some 8 } initialState).progress : ℚ) - 1 / 2
      ≤ (((1 : Fin (2 ^ 64)).val : ℕ) : ℚ) * 100 / (((8 : Fin (2 ^ 64)).val : ℕ) : ℚ) ∧
    onUploadProgress { loaded := 1, total := none } initialState = initialState :=
  ⟨by decide,
   ((onUploadProgress_rounds { loaded := 1, total := some 8 } initialState).1 8 rfl
      (by decide) (by decide)).2.1,
   (onUploadProgress_rounds { loaded := 1, total := none } initialState).2 (Or.inl rfl)⟩

/-- C6, counterexample: a notification reporting two bytes loaded of a total of
one stores 200. -/
theorem progress_overshoot_counterexample :
    (run stepUI initialSystem overshootTrace).map (fun sys => sys.page.progress) = some 200 ∧
    ¬ ((200 : Int) ≤ 100) := by
  decide

/-- C6, amended: along every sequence of dispatches from the mounted component
in which each progress notification with a known (present, non-zero) total has
`loaded ≤ total`, the stored progress is an integer between 0 and 100
inclusive. -/
theorem progress_bounded_in_range (evs : List Event) (sys : System)
    (hrun : run step initialSystem evs = some sys)
    (hr : ∀ e ∈ evs, inRange e = true) :
    0 ≤ sys.page.progress ∧ sys.page.progress ≤ 100 :=
  run_progress_bounds evs initialSystem sys hrun hr (by decide)

/-- Witness for C6: a run holding a notification with total 0 and loaded 4096,
and one reporting half of the transfer. -/
theorem progress_bounded_in_range_witness :
    run step initialSystem zeroTotalTrace = some halfwaySystem ∧
    (∀ e ∈ zeroTotalTrace, inRange e = true) ∧
    0 ≤ halfwaySystem.page.progress ∧ halfwaySystem.page.progress ≤ 100 :=
  ⟨by decide, by decide,
   progress_bounded_in_range zeroTotalTrace halfwaySystem (by decide) (by decide)⟩

/-- C5, counterexample: after a completed attempt that left progress at 100, a
second submission of the same valid selection starts uploading with progress
still 100. -/
theorem progress_not_reset_counterexample :
    (run stepUI initialSystem (completedAttempt ++ [Event.click])).map
      (fun sys => (sys.page.uploading, sys.inflight.length, sys.page.progress))
      = some (true, 1, 100) := by
  decide

/-- C5, amended: `handleUpload` never writes `progress`, which is 0 for the
mounted component; `handleFileChange`, the two continuations of the request,
the timer callback and a notification without a usable total leave it alone as
well, so that a dispatch changes `progress` only when it is a progress
notification whose total is present and non-zero. -/
theorem handleUpload_keeps_progress (s : State) :
    (handleUpload s).1.progress = s.progress ∧ initialState.progress = 0 ∧
    (∀ targetFiles, (handleFileChange targetFiles s).progress = s.progress) ∧
    (∀ response, (onFulfilled response s).1.progress = s.progress) ∧
    (∀ response, (onTimeout response s).progress = s.progress) ∧
    (∀ err, (onRejected err s).progress = s.progress) ∧
    (∀ e, (e.total = none ∨ e.total = some 0) →
      (onUploadProgress e s).progress = s.progress) ∧
    (∀ sys e sys1, step sys e = some sys1 → sys1.page.progress ≠ sys.page.progress →
      ∃ pe total, e = Event.progress pe ∧ pe.total = some total ∧ total.val ≠ 0) := by
  refine ⟨handleUpload_progress s, rfl, ?_, fun _ => rfl,
    fun response => (onTimeout_cells response s).2.2.2.1, fun _ => rfl, ?_, ?_⟩
  · intro targetFiles
    cases targetFiles <;> rfl
  · intro e he
    rcases onUploadProgress_change e s with h | ⟨total, ht, h0⟩
    · exact h
    · rcases he with he | he
      · rw [he] at ht
        exact absurd ht (by simp)
      · rw [he] at ht
        have hz : total = 0 := (Option.some.inj ht).symm
        rw [hz] at h0
        exact absurd rfl h0
  · intro sys e sys1 hstep hne
    cases e with
    | fileChange targetFiles =>
      simp only [step, Option.some.injEq] at hstep
      subst hstep
      exact absurd (by cases targetFiles <;> rfl) hne
    | click =>
      simp only [step, Option.some.injEq] at hstep
      subst hstep
      exact absurd (handleUpload_progress sys.page) hne
    | progress pe =>
      simp only [step] at hstep
      split_ifs at hstep
      simp only [Option.some.injEq] at hstep
      subst hstep
      rcases onUploadProgress_change pe sys.page with h | ⟨total, ht, h0⟩
      · exact absurd h hne
      · exact ⟨pe, total, rfl, ht, h0⟩
    | fulfilled i response =>
      simp only [step] at hstep
      split_ifs at hstep
      simp only [Option.some.injEq] at hstep
      subst hstep
      exact absurd rfl hne
    | rejected i err =>
      simp only [step] at hstep
      split_ifs at hstep
      simp only [Option.some.injEq] at hstep
      subst hstep
      exact absurd rfl hne
    | timeout =>
      simp only [step] at hstep
      split at hstep
      · exact absurd hstep (by simp)
      · rename_i due response rest htimers
        split_ifs at hstep
        simp only [Option.some.injEq] at hstep
        subst hstep
        exact absurd (onTimeout_cells response sys.page).2.2.2.1 hne
    | advance ms =>
      simp only [step, Option.some.injEq] at hstep
      subst hstep
      exact absurd rfl hne

/-- Witness for C5: after the completed attempt a new submission and a
notification with total 0 both leave progress at 100. -/
theorem handleUpload_keeps_progress_witness :
    (handleUpload completedSystem.page).1.progress = 100 ∧
    (onUploadProgress { loaded := 4096, total := some 0 } completedSystem.page).progress
      = 100 :=
  ⟨(handleUpload_keeps_progress completedSystem.page).1,
   (handleUpload_keeps_progress completedSystem.page).2.2.2.2.2.2.1
     { loaded := 4096, total := some 0 } (Or.inr rfl)⟩

/-! ## The gated system -/

theorem handleUpload_flags (s : State) :
    ((handleUpload s).2 = [] ∧ (handleUpload s).1.uploading = s.uploading ∧
      (handleUpload s).1.extracting = s.extracting) ∨
    ((handleUpload s).2.length = 1 ∧ (handleUpload s).1.uploading = true ∧
      (handleUpload s).1.extracting = s.extracting) := by
  unfold handleUpload handleUploadWith validateFiles
  split_ifs <;> first
    | exact Or.inl ⟨rfl, rfl, rfl⟩
    | exact Or.inr ⟨rfl, rfl, rfl⟩

theorem handleFileChange_flags (targetFiles : Option (List File)) (s : State) :
    (handleFileChange targetFiles s).uploading = s.uploading ∧
    (handleFileChange targetFiles s).extracting = s.extracting := by
  cases targetFiles <;> exact ⟨rfl, rfl⟩

theorem onUploadProgress_flags (e : ProgressEvent) (s : State) :
    (onUploadProgress e s).uploading = s.uploading ∧
    (onUploadProgress e s).extracting = s.extracting := by
  unfold onUploadProgress
  split
  · split_ifs <;> exact ⟨rfl, rfl⟩
  · exact ⟨rfl, rfl⟩

theorem coherent_initial : Coherent initialSystem := by
  unfold Coherent initialSystem initialState
  simp

theorem stepUI_coherent (sys sys1 : System) (e : Event)
    (hstep : stepUI sys e = some sys1) (hc : Coherent sys) : Coherent sys1 := by
  obtain ⟨hu, hx, hle⟩ := hc
  unfold stepUI at hstep
  split_ifs at hstep with hen
  cases e with
  | fileChange targetFiles =>
    simp only [step, Option.some.injEq] at hstep
    subst hstep
    obtain ⟨h1, h2⟩ := handleFileChange_flags targetFiles sys.page
    exact ⟨by simp only [h1]; exact hu, by simp only [h2]; exact hx, hle⟩
  | click =>
    simp only [enabled, submitDisabled, Bool.not_eq_true', Bool.or_eq_false_iff] at hen
    obtain ⟨⟨hup, hex⟩, _⟩ := hen
    have hin : sys.inflight.length = 0 := by
      have hne : ¬ sys.inflight.length = 1 := fun h1 => by
        have := hu.2 h1
        rw [hup] at this
        exact absurd this (by decide)
      omega
    have htm : sys.timers.length = 0 := by
      have hne : ¬ sys.timers.length = 1 := fun h1 => by
        have := hx.2 h1
        rw [hex] at this
        exact absurd this (by decide)
      omega
    simp only [step, Option.some.injEq] at hstep
    subst hstep
    rcases handleUpload_flags sys.page with ⟨h2, h1, h3⟩ | ⟨h2, h1, h3⟩
    · refine ⟨?_, ?_, ?_⟩
      · simp only [h1, h2, List.append_nil]
        exact hu
      · simp only [h3]
        exact hx
      · simp only [h2, List.append_nil]
        exact hle
    · refine ⟨?_, ?_, ?_⟩
      · simp only [h1, List.length_append, h2, hin]
      · simp only [h3]
        exact hx
      · simp only [List.length_append, h2, hin, htm]
        omega
  | progress pe =>
    simp only [step] at hstep
    split_ifs at hstep
    simp only [Option.some.injEq] at hstep
    subst hstep
    obtain ⟨h1, h2⟩ := onUploadProgress_flags pe sys.page
    exact ⟨by simp only [h1]; exact hu, by simp only [h2]; exact hx, hle⟩
  | fulfilled i response =>
    simp only [step] at hstep
    split_ifs at hstep with hi
    simp only [Option.some.injEq] at hstep
    subst hstep
    have hin : sys.inflight.length = 1 := by omega
    have htm : sys.timers.length = 0 := by omega
    have hi0 : i = 0 := by omega
    refine ⟨?_, ?_, ?_⟩
    · simp [onFulfilled, List.length_eraseIdx, hi0, hin]
    · simp [onFulfilled, htm]
    · simp [onFulfilled, List.length_eraseIdx, hi0, hin, htm]
  | rejected i err =>
    simp only [step] at hstep
    split_ifs at hstep with hi
    simp only [Option.some.injEq] at hstep
    subst hstep
    have hin : sys.inflight.length = 1 := by omega
    have htm : sys.timers.length = 0 := by omega
    have hi0 : i = 0 := by omega
    refine ⟨?_, ?_, ?_⟩
    · simp [onRejected, List.length_eraseIdx, hi0, hin]
    · simp only [onRejected]
      exact hx
    · simp [List.length_eraseIdx, hi0, hin, htm]
  | timeout =>
    simp only [step] at hstep
    split at hstep
    · exact absurd hstep (by simp)
    · rename_i due response rest htimers
      split_ifs at hstep
      simp only [Option.some.injEq] at hstep
      subst hstep
      rw [htimers] at hx hle
      simp only [List.length_cons] at hx hle
      have hrest : rest.length = 0 := by omega
      have hin : sys.inflight.length = 0 := by omega
      obtain ⟨_, hcu, hcx, _, _⟩ := onTimeout_cells response sys.page
      refine ⟨?_, ?_, ?_⟩
      · simp only [hcu]
        exact hu
      · simp [hcx, hrest]
      · simp only [hrest, hin]
        omega
  | advance ms =>
    simp only [step, Option.some.injEq] at hstep
    subst hstep
    exact ⟨hu, hx, hle⟩

theorem runUI_coherent (evs : List Event) (sys0 sys : System)
    (hrun : run stepUI sys0 evs = some sys) (hc : Coherent sys0) : Coherent sys := by
  induction evs generalizing sys0 with
  | nil =>
    simp only [run, Option.some.injEq] at hrun
    subst hrun
    exact hc
  | cons e es ih =>
    simp only [run] at hrun
    cases hstep : stepUI sys0 e with
    | none => simp [hstep] at hrun
    | some sys1 =>
      rw [hstep] at hrun
      exact ih sys1 hrun (stepUI_coherent sys0 sys1 e hstep hc)

theorem coherent_idle (sys : System) (hc : Coherent sys)
    (hd : submitDisabled sys.page = false) : sys.inflight = [] ∧ sys.timers = [] := by
  obtain ⟨hu, hx, hle⟩ := hc
  simp only [submitDisabled, Bool.or_eq_false_iff] at hd
  obtain ⟨⟨hup, hex⟩, _⟩ := hd
  have hin : sys.inflight.length = 0 := by
    have hne : ¬ sys.inflight.length = 1 := fun h1 => by
      have := hu.2 h1
      rw [hup] at this
      exact absurd this (by decide)
    omega
  have htm : sys.timers.length = 0 := by
    have hne : ¬ sys.timers.length = 1 := fun h1 => by
      have := hx.2 h1
      rw [hex] at this
      exact absurd this (by decide)
    omega
  exact ⟨List.length_eq_zero.1 hin, List.length_eq_zero.1 htm⟩

/-- C10: in every state reached from the mounted component when user events
only reach enabled controls, `uploading` and `extracting` are not both true,
at most one request is pending, an unfinished attempt (pending request or
registered timer) keeps the submit button disabled so that a click is not
dispatched, and whenever the button is enabled nothing is pending. -/
theorem one_phase_one_request (evs : List Event) (sys : System)
    (hrun : run stepUI initialSystem evs = some sys) :
    ¬ (sys.page.uploading = true ∧ sys.page.extracting = true) ∧
    sys.inflight.length + sys.timers.length ≤ 1 ∧
    (sys.page.uploading = true ↔ sys.inflight.length = 1) ∧
    (sys.page.extracting = true ↔ sys.timers.length = 1) ∧
    ((sys.inflight ≠ [] ∨ sys.timers ≠ []) → stepUI sys Event.click = none) ∧
    (submitDisabled sys.page = false → sys.inflight = [] ∧ sys.timers = []) := by
  have hc := runUI_coherent evs initialSystem sys hrun coherent_initial
  have hidle := coherent_idle sys hc
  obtain ⟨hu, hx, hle⟩ := hc
  refine ⟨?_, hle, hu, hx, ?_, hidle⟩
  · rintro ⟨h1, h2⟩
    have := hu.1 h1
    have := hx.1 h2
    omega
  · intro hpending
    unfold stepUI
    cases hd : submitDisabled sys.page with
    | true => simp [enabled, hd]
    | false =>
      obtain ⟨h1, h2⟩ := hidle hd
      rcases hpending with h | h
      · exact absurd h1 h
      · exact absurd h2 h

/-- Witness for C10: with one upload pending the submit button is disabled. -/
theorem one_phase_one_request_witness :
    run stepUI initialSystem pendingUpload = some pendingSystem ∧
    pendingSystem.inflight.length + pendingSystem.timers.length ≤ 1 ∧
    stepUI pendingSystem Event.click = none :=
  ⟨by decide,
   (one_phase_one_request pendingUpload pendingSystem (by decide)).2.1,
   (one_phase_one_request pendingUpload pendingSystem (by decide)).2.2.2.2.1
     (Or.inl (by decide))⟩

/-! ## Settling the request -/

theorem jsOr_of_truthy (m b : String) (hm : m ≠ "") : jsOr (some m) b = m := by
  unfold jsOr
  simp only [hm, if_false]

theorem jsOr_of_falsy (a : Option String) (b : String) (ha : a = none ∨ a = some "") :
    jsOr a b = b := by
  rcases ha with h | h <;> subst h <;> rfl

/-- C8, counterexample: a fulfilled response whose `message` field is the empty
string ends with the default text, not with the server-provided message; and a
fulfilled response whose body is `null` ends with no success text at all. -/
theorem empty_success_message_counterexample :
    (run stepUI initialSystem
      [ Event.fileChange (some [reportPdf]), Event.click,
        Event.fulfilled 0 { data := some { message := some "" } },
        Event.advance 5000, Event.timeout ]).map (fun sys => sys.page.success)
      = some (some "Data extracted successfully!") ∧
    (some "Data extracted successfully!" : Option String) ≠ some "" ∧
    (run stepUI initialSystem
      [ Event.fileChange (some [reportPdf]), Event.click,
        Event.fulfilled 0 { data := none },
        Event.advance 5000, Event.timeout ]).map
        (fun sys => (sys.page.extracting, sys.page.success))
      = some (false, none) := by
  decide

/-- C8, amended: when the pending request of a reachable state is fulfilled,
`uploading` becomes false and `extracting` true and one timer is registered
5000 ms ahead; the timer cannot run before 5000 ms have passed; once they
have, it ends `extracting`, and for a response whose body is not `null` it
sets `success` to the body message when that is present and non-empty, and to
"Data extracted successfully!" when it is absent or the empty string. -/
theorem fulfilled_then_success (evs : List Event) (sys : System) (i : Nat)
    (response : Response)
    (hrun : run stepUI initialSystem evs = some sys) (hi : i < sys.inflight.length) :
    ∃ sys1, stepUI sys (Event.fulfilled i response) = some sys1 ∧
      sys1.page.uploading = false ∧ sys1.page.extracting = true ∧
      sys1.timers = [(sys.now + 5000, response)] ∧
      (∀ ms, ms < 5000 → run stepUI sys1 [Event.advance ms, Event.timeout] = none) ∧
      ∃ sys2, run stepUI sys1 [Event.advance 5000, Event.timeout] = some sys2 ∧
        sys2.page.uploading = false ∧ sys2.page.extracting = false ∧
        ∀ body, response.data = some body →
          (∀ m, body.message = some m → m ≠ "" → sys2.page.success = some m) ∧
          ((body.message = none ∨ body.message = some "") →
            sys2.page.success = some "Data extracted successfully!") := by
  have hc := runUI_coherent evs initialSystem sys hrun coherent_initial
  obtain ⟨_, _, hle⟩ := hc
  have htm : sys.timers = [] := List.length_eq_zero.1 (by omega)
  refine ⟨{ sys with page := { sys.page with uploading := false, extracting := true },
                     inflight := sys.inflight.eraseIdx i,
                     timers := [(sys.now + 5000, response)] }, ?_, rfl, rfl, rfl, ?_, ?_⟩
  · simp [stepUI, enabled, step, hi, onFulfilled, htm]
  · intro ms hms
    have hlt : ¬ sys.now + 5000 ≤ sys.now + ms := by omega
    simp [run, stepUI, enabled, step, hlt]
  · obtain ⟨_, hcu, hcx, _, _⟩ := onTimeout_cells response
      { sys.page with uploading := false, extracting := true }
    refine ⟨{ sys with page := onTimeout response
                         { sys.page with uploading := false, extracting := true },
                       now := sys.now + 5000,
                       inflight := sys.inflight.eraseIdx i,
                       timers := [] }, ?_, hcu, hcx, ?_⟩
    · simp [run, stepUI, enabled, step]
    · intro body hbody
      constructor
      · intro m hm hne
        simp only [onTimeout, hbody, hm, jsOr_of_truthy m _ hne]
      · intro h
        simp only [onTimeout, hbody, jsOr_of_falsy _ _ h]

/-- Witness for C8: the pending upload fulfilled with the message "ok". -/
theorem fulfilled_then_success_witness :
    run stepUI initialSystem pendingUpload = some pendingSystem ∧
    ∃ sys1, stepUI pendingSystem
        (Event.fulfilled 0 { data := some { message := some "ok" } }) = some sys1 ∧
      sys1.page.uploading = false ∧ sys1.page.extracting = true ∧
      sys1.timers = [(pendingSystem.now + 5000, { data := some { message := some "ok" } })] ∧
      ∃ sys2, run stepUI sys1 [Event.advance 5000, Event.timeout] = some sys2 ∧
        sys2.page.extracting = false ∧ sys2.page.success = some "ok" :=
  ⟨by decide,
   (fulfilled_then_success pendingUpload pendingSystem 0
      { data := some { message := some "ok" } } (by decide) (by decide)).imp
     (fun _ h => ⟨h.1, h.2.1, h.2.2.1, h.2.2.2.1,
        h.2.2.2.2.2.imp (fun _ g =>
          ⟨g.1, g.2.2.1, (g.2.2.2 { message := some "ok" } rfl).1 "ok" rfl (by decide)⟩)⟩)⟩

/-- C9, counterexample: a failure whose body carries the empty string as
`message` shows the fallback text, not the server-provided message. -/
theorem empty_error_message_counterexample :
    (run stepUI initialSystem
      [ Event.fileChange (some [reportPdf]), Event.click,
        Event.rejected 0 { response := some { data := some { message := some "" } } } ]).map
      (fun sys => sys.page.error)
      = some (some "An error occurred during file upload or extraction") ∧
    (some "An error occurred during file upload or extraction" : Option String) ≠ some "" := by
  decide

/-- C9, amended: when the pending request of a reachable state fails,
`uploading` becomes false, `extracting` is false, nothing is pending afterwards
(no retry, no timer), the other cells keep their values, and `error` is the
message at `response.data.message` when that is present and non-empty, and
"An error occurred during file upload or extraction" when the response, its
data or its message is absent or the message is the empty string. -/
theorem rejected_sets_error (evs : List Event) (sys : System) (i : Nat) (err : AxiosError)
    (hrun : run stepUI initialSystem evs = some sys) (hi : i < sys.inflight.length) :
    ∃ sys1, stepUI sys (Event.rejected i err) = some sys1 ∧
      sys1.page.uploading = false ∧ sys1.page.extracting = false ∧
      sys1.inflight = [] ∧ sys1.timers = [] ∧
      sys1.page.files = sys.page.files ∧ sys1.page.progress = sys.page.progress ∧
      sys1.page.success = sys.page.success ∧
      (∀ m, err.response = some { data := some { message := some m } } → m ≠ "" →
        sys1.page.error = some m) ∧
      ((err.response = none ∨ err.response = some { data := none } ∨
          err.response = some { data := some { message := none } } ∨
          err.response = some { data := some { message := some "" } }) →
        sys1.page.error = some "An error occurred during file upload or extraction") := by
  have hc := runUI_coherent evs initialSystem sys hrun coherent_initial
  obtain ⟨_, hx, hle⟩ := hc
  have htm : sys.timers = [] := List.length_eq_zero.1 (by omega)
  have hin : sys.inflight.length = 1 := by omega
  have hex : sys.page.extracting = false := by
    cases hb : sys.page.extracting with
    | false => rfl
    | true =>
      have := hx.1 hb
      omega
  have hi0 : i = 0 := by omega
  refine ⟨{ sys with page := onRejected err sys.page,
                     inflight := sys.inflight.eraseIdx i }, ?_, rfl, hex, ?_, htm,
    rfl, rfl, rfl, ?_, ?_⟩
  · simp [stepUI, enabled, step, hi]
  · apply List.length_eq_zero.1
    simp [List.length_eraseIdx, hi0, hin]
  · intro m hm hne
    simp only [onRejected, errorMessage, hm, jsOr_of_truthy m _ hne]
  · intro h
    have hfalsy : errorMessage err = none ∨ errorMessage err = some "" := by
      rcases h with h | h | h | h <;> simp [errorMessage, h]
    simp only [onRejected, jsOr_of_falsy _ _ hfalsy]

/-- Witness for C9: the pending upload failing with the body message "bad file". -/
theorem rejected_sets_error_witness :
    run stepUI initialSystem pendingUpload = some pendingSystem ∧
    ∃ sys1, stepUI pendingSystem (Event.rejected 0
        { response := some { data := some { message := some "bad file" } } }) = some sys1 ∧
      sys1.page.uploading = false ∧ sys1.page.extracting = false ∧ sys1.inflight = [] ∧
      sys1.page.error = some "bad file" :=
  ⟨by decide,
   (rejected_sets_error pendingUpload pendingSystem 0
      { response := some { data := some { message := some "bad file" } } }
      (by decide) (by decide)).imp
     (fun _ h => ⟨h.1, h.2.1, h.2.2.1, h.2.2.2.1,
        h.2.2.2.2.2.2.2.2.1 "bad file" rfl (by decide)⟩)⟩

/-! ## Status messages -/

/-- C4: after a completed attempt that shows the success "ok", selecting one
plain-text file and clicking submit leaves `success` set and sets `error`, so
both banners are rendered at once. -/
theorem error_and_success_both_set :
    (run stepUI initialSystem
      (completedAttempt ++ [Event.fileChange (some [notesTxt]), Event.click])).map
      (fun sys => (sys.page.error, sys.page.success,
        errorBanner sys.page, successBanner sys.page))
      = some (some "Unsupported file format(s): notes.txt", some "ok", true, true) := by
  decide

end UploadPage
